import Mathlib

/-!
# Verification of the fetch-orchestration core of NotionToHTML

A shallow embedding of `src/notion2html/networking.py` and
`src/notion2html/notion.py`: the retry layer (`get_network_data`,
`_handle_response`), cursor pagination (`fetch_pages_info_from_database`),
the fetch registry (`FetchedObject.record_fetched_object`), the user
directory (`get_notion_users`, `NotionPage.get_username_for_user_id`) and
the recursive page/database expansion (`get_page`,
`get_database_from_notion`, `get_subpages_or_subdatabases`,
`get_pages_concurrently`, `handle_page_special_cases`,
`handle_attachments`, `fetch_all_blocks`).

Conventions of the embedding:
* Object ids and attachment URLs are natural numbers; `0` plays the role of
  the empty/absent id or URL string.
* The remote Notion service is a `World`: total maps from ids to page
  properties, block children, database info and query results.  `none`
  models a 404 (`object_not_found`) response.
* Python exceptions become values of `Err`; `Err.fuel` is a model artifact
  marking exhaustion of the structural recursion fuel (i.e. the spot where
  the Python code would still be running), it is deliberately not catchable
  by the modelled `except` blocks.
* The thread pool of `get_pages_concurrently` is modelled as a sequential
  fold: the registry lock makes every registry access atomic, and each
  future's result is consumed independently, so any interleaving is
  equivalent to some sequential order for the properties studied here.
-/

/-- Errors of the networking and expansion layer.  `notFound` is
`Error404NotFound`, `forbidden` is `Error403RestrictedResource`,
`runtime` is Python's `RuntimeError`, `valueError` is `ValueError`,
`retriesExhausted` is the `RuntimeError("No more retries left!")` raised
when the 4-attempt budget is spent, `noResponse` marks running off the end
of a modelled outcome stream, and `fuel` marks fuel exhaustion of the
model's recursion (nontermination of the source). -/
inductive Err where
  | notFound
  | forbidden
  | runtime
  | valueError
  | retriesExhausted
  | noResponse
  | fuel
deriving DecidableEq, Repr

/-- Classified outcome of one request/response exchange, as produced by
`_execute_request` plus `_handle_response` (networking.py 340-418):
`success` is a parsed 2xx payload, `notFound` a 404 with domain code
`object_not_found`, `forbidden` a 403 with `restricted_resource`,
`valueError` an unhandled method/payload combination, and the remaining
constructors are the transient classifications (timeout, 429 rate limit,
malformed JSON, other non-2xx status, other exception) that lead to a
retry. -/
inductive Outcome where
  | success (payload : Nat)
  | timeout
  | rateLimited
  | malformed
  | otherStatus
  | otherException
  | notFound
  | forbidden
  | valueError
deriving DecidableEq, Repr

/-- The retry loop body of `get_network_data` (networking.py 279-318).
The first argument is the loop variable `i` of `for i in range(4, 0, -1)`;
the outcome list is the stream of classified responses the network yields,
one per attempt.  Returns the result together with the number of attempts
performed.  On `success` the data is returned; `notFound`, `forbidden` and
`valueError` re-raise immediately; every transient outcome retries, except
that when `i == 1` the loop raises `RuntimeError("No more retries left!")`
(`retriesExhausted`). -/
def gndGo : Nat → List Outcome → Except Err Nat × Nat
  | 0, _ => (Except.error Err.noResponse, 0)
  | _ + 1, [] => (Except.error Err.noResponse, 0)
  | i + 1, o :: rest =>
    match o with
    | Outcome.success d => (Except.ok d, 1)
    | Outcome.notFound => (Except.error Err.notFound, 1)
    | Outcome.forbidden => (Except.error Err.forbidden, 1)
    | Outcome.valueError => (Except.error Err.valueError, 1)
    | _ =>
      if i = 0 then (Except.error Err.retriesExhausted, 1)
      else
        let p := gndGo i rest
        (p.1, p.2 + 1)

/-- `get_network_data` (networking.py 279-318): the retry executor with its
fixed budget of 4 attempts (`for i in range(4, 0, -1)`). -/
def get_network_data (outcomes : List Outcome) : Except Err Nat × Nat :=
  gndGo 4 outcomes

/-- One page of results of the paginated database query endpoint: the
`results` array (items as ids), the `has_more` flag and the `next_cursor`
value. -/
structure QueryResponse where
  results : List Nat
  has_more : Bool
  next_cursor : Nat
deriving DecidableEq, Repr

/-- `fetch_pages_info_from_database` (networking.py 189-212).  The server
is modelled by the list of responses it returns, in order; each call
consumes one response (one query round trip).  The second component of the
result records the `start_cursor` sent with each round trip: `none` for
the initial call (no payload), `some c` when following a `next_cursor`
value `c`.  An empty response list means the modelled stream is exhausted. -/
def fetch_pages_info_from_database :
    List QueryResponse → Option Nat → Except Err (List Nat × List (Option Nat))
  | [], _ => Except.error Err.noResponse
  | r :: rest, cursor =>
    if !r.has_more then Except.ok (r.results, [cursor])
    else
      match fetch_pages_info_from_database rest (some r.next_cursor) with
      | Except.ok (items, reqs) => Except.ok (r.results ++ items, cursor :: reqs)
      | Except.error e => Except.error e

/-- The registry update of `FetchedObject.record_fetched_object`
(networking.py 51-60), on the set of already-recorded ids (dict keys in
insertion order): if the id is present return `false` and leave the
registry unchanged, otherwise record it and return `true`. -/
def record (claimed : List Nat) (id : Nat) : Bool × List Nat :=
  if id ∈ claimed then (false, claimed) else (true, claimed ++ [id])

/-- The sequence of boolean answers `record_fetched_object` gives to a
sequence of claim calls, starting from registry contents `claimed`. -/
def claim_results (claimed : List Nat) : List Nat → List Bool
  | [] => []
  | c :: cs =>
    let p := record claimed c
    p.1 :: claim_results p.2 cs

/-- The answers of `claim_results` restricted to the calls whose id is `x`. -/
def results_for (x : Nat) (claimed : List Nat) : List Nat → List Bool
  | [] => []
  | c :: cs =>
    let p := record claimed c
    (if c = x then [p.1] else []) ++ results_for x p.2 cs

/-- Ordered-dictionary insertion: Python's `d[k] = v` on a dict kept as an
association list in insertion order (an existing key keeps its position
and gets the new value, a new key is appended). -/
def dinsert {κ α : Type} [BEq κ] (l : List (κ × α)) (k : κ) (v : α) : List (κ × α) :=
  if l.any (fun p => p.1 == k) then l.map (fun p => if p.1 == k then (k, v) else p)
  else l ++ [(k, v)]

/-- Python's `dict.get(k)` on an association list. -/
def dlookup {κ α : Type} [BEq κ] (l : List (κ × α)) (k : κ) : Option α :=
  (l.find? (fun p => p.1 == k)).map (fun p => p.2)

/-- `get_notion_users` (networking.py 120-147) acting on the
`USERS_FROM_NOTION` table.  The first argument is the outcome of
`fetch_all_users()`: an exception (`Error403RestrictedResource` or any
other) makes the function log, leave the table unchanged and return — the
run continues; a successful result is folded into the table keyed by user
id. -/
def get_notion_users (fetch_result : Except Unit (List (String × String)))
    (users : List (String × String)) : List (String × String) :=
  match fetch_result with
  | Except.error _ => users
  | Except.ok data => data.foldl (fun us p => dinsert us p.1 p.2) users

/-- `NotionPage.get_username_for_user_id` (notion.py 363-369): the display
name when the user id is in the table, and the empty string otherwise. -/
def get_username_for_user_id (all_users : List (String × String)) (user_id : String) : String :=
  match dlookup all_users user_id with
  | some name => name
  | none => ""

/-- The display-name fallback performed by the rendering callers
`_people`, `_created_by` and `_last_edited_by` (htmltools.py 1088-1158):
when `get_username_for_user_id` yields a falsy (empty) name, the raw user
id is used instead. -/
def display_username_for_user_id (all_users : List (String × String)) (user_id : String) :
    String :=
  let username := get_username_for_user_id all_users user_id
  if username = "" then user_id else username

/-! ## The expansion model

State and primitives for `notion.py`'s recursive expansion.  The state is
the fetch registry (`FETCHED_OBJECTS`, a `FetchedObject` holding the dict
of recorded ids in insertion order) plus an instrumentation trace of the
network calls performed, in order. -/

/-- One network call of the expansion, for counting round trips:
`fetchPage i` is `networking.fetch_page(i)`, `fetchBlocks i` is one call of
`networking.fetch_all_blocks` with parent id `i`, `fetchDbInfo` is
`networking.fetch_database_info`, `queryDb` is
`networking.fetch_pages_info_from_database`, and `download u` is
`networking.download_file_and_save` for source URL `u`. -/
inductive Ev where
  | fetchPage (id : Nat)
  | fetchBlocks (id : Nat)
  | fetchDbInfo (id : Nat)
  | queryDb (id : Nat)
  | download (url : Nat)
deriving DecidableEq, Repr

/-- Run state: the registry's recorded ids (dict keys in insertion order)
and the network-call trace. -/
structure St where
  claimed : List Nat
  trace : List Ev
deriving DecidableEq, Repr

/-- State-and-error monad of the expansion: a computation takes the run
state to a result (or a raised `Err`) together with the state at that
point.  Registry mutations performed before an exception persist, exactly
as in the source where the registry is shared. -/
def M (α : Type) : Type := St → Except Err α × St

def M.pure {α : Type} (a : α) : M α := fun s => (Except.ok a, s)

def M.bind {α β : Type} (x : M α) (f : α → M β) : M β := fun s =>
  match x s with
  | (Except.ok a, s') => f a s'
  | (Except.error e, s') => (Except.error e, s')

def M.throw {α : Type} (e : Err) : M α := fun s => (Except.error e, s)

/-- Python `except Exception` around a computation (the per-future catch of
`get_pages_concurrently`, notion.py 526-533).  `Err.fuel` stands for
nontermination, which no `except` block can observe, so it passes
through. -/
def M.catchAll {α : Type} (x : M α) (h : M α) : M α := fun s =>
  match x s with
  | (Except.error e, s') => if e = Err.fuel then (Except.error Err.fuel, s') else h s'
  | r => r

/-- Python `except RuntimeError` (the catch in `handle_attachments`,
notion.py 660-666): only `RuntimeError` is handled, everything else
propagates. -/
def M.catchRuntime {α : Type} (x : M α) (h : M α) : M α := fun s =>
  match x s with
  | (Except.error Err.runtime, s') => h s'
  | r => r

/-- Append an event to the trace. -/
def M.emit (e : Ev) : M Unit := fun s =>
  (Except.ok (), { s with trace := s.trace ++ [e] })

/-- `networking.add_object_to_fetched` →
`FetchedObject.record_fetched_object` (networking.py 51-60) as a monadic
action on the run state, built on the pure `record`. -/
def record_fetched_object (id : Nat) : M Bool := fun s =>
  let p := record s.claimed id
  (Except.ok p.1, { s with claimed := p.2 })

/-- An inline rich-text span, reduced to what the expansion scans for:
an optional page mention and an optional database mention
(`text['mention']['page']['id']` / `text['mention']['database']['id']`,
notion.py 718-727). -/
structure RichText where
  mentionPage : Option Nat
  mentionDb : Option Nat
deriving DecidableEq, Repr

/-- A raw block record, reduced to the fields the expansion reads: `id`,
`type`, `has_children`, the paragraph `rich_text` list, the `table_row`
`cells`, and for attachment-bearing types the payload's `type` tag
(`"file"` for Notion-hosted, `"external"` otherwise) and the source URL
that `utils.find_url_for_block` would return (`0` = empty). -/
structure Block where
  id : Nat
  type : String
  hasChildren : Bool := false
  richText : List RichText := []
  cells : List (List RichText) := []
  attachType : String := ""
  url : Nat := 0
deriving DecidableEq, Repr

/-- The decoded page-properties object returned by `fetch_page` or listed
in a database query result: the page id, the title
(`utils.find_page_title`), and the URLs found in `files`-type properties
(`htmltools.extract_files_properties_only` plus the nested loop of
`handle_page_special_cases`, notion.py 645-654). -/
structure PageData where
  id : Nat
  title : String := ""
  fileUrls : List Nat := []
deriving DecidableEq, Repr

/-- The remote Notion service.  `pageProps i = none` and `dbInfo i = none`
model a 404 `object_not_found` response for that id; `children i` is the
result list of the block-children endpoint for parent `i`; `dbQuery i` the
(already unpaginated) query results of database `i`; `downloadOk u` tells
whether downloading URL `u` succeeds or raises `RuntimeError` after the
retry budget. -/
structure World where
  pageProps : Nat → Option PageData
  children : Nat → List Block
  dbInfo : Nat → Option String
  dbQuery : Nat → List PageData
  downloadOk : Nat → Bool

/-- `networking.fetch_page` (networking.py 240-247): one round trip; a 404
raises `Error404NotFound` out of the retry layer. -/
def fetchPageM (w : World) (i : Nat) : M PageData :=
  M.bind (M.emit (Ev.fetchPage i)) fun _ =>
    match w.pageProps i with
    | some pd => M.pure pd
    | none => M.throw Err.notFound

/-- `networking.fetch_database_info` (networking.py 179-186). -/
def fetchDbInfoM (w : World) (i : Nat) : M String :=
  M.bind (M.emit (Ev.fetchDbInfo i)) fun _ =>
    match w.dbInfo i with
    | some title => M.pure title
    | none => M.throw Err.notFound

/-- `networking.fetch_pages_info_from_database` as used by the expansion
(pagination already concatenated; the cursor mechanics are verified
separately on `fetch_pages_info_from_database`). -/
def queryDbM (w : World) (i : Nat) : M (List PageData) :=
  M.bind (M.emit (Ev.queryDb i)) fun _ => M.pure (w.dbQuery i)

/-- `networking.download_file_and_save` (networking.py 155-176): one
download; failure is the `RuntimeError` surfaced by the retry layer. -/
def downloadM (w : World) (u : Nat) : M Unit :=
  M.bind (M.emit (Ev.download u)) fun _ =>
    if w.downloadOk u then M.pure () else M.throw Err.runtime

/-- The recorded state of a `NotionPage` object (notion.py 162-383),
restricted to the fields the verified properties read.  `blocks_by_id`,
`tables_and_rows` and `attachments` are Python dicts kept in insertion
order; `errors` is the length of the error log; `databases` holds the
values passed to `add_database` (which can be `None`: notion.py 631-632
appends the raw result of `get_database_from_notion`). -/
structure NPage where
  id : Nat
  title : String
  blocks : List Block
  blocks_by_id : List (Nat × Block)
  tables_and_rows : List (Nat × List Block)
  attachments : List (Nat × Nat × String)
  errors : Nat
  subpage_ids : List Nat
  databases : List (Option Nat)
  parent_page_id : Nat
  parent_page_title : String
deriving DecidableEq, Repr

/-- A `NotionDatabase` (notion.py 115-159): id, title and the deduplicated
pages stored by `add_pages`. -/
structure NDb where
  id : Nat
  title : String
  pages : List NPage
deriving DecidableEq, Repr

/-- A value in the list returned by `get_subpages_or_subdatabases`. -/
inductive SubItem where
  | page (p : NPage)
  | db (d : NDb)
deriving DecidableEq, Repr

/-- One level of `networking.fetch_all_blocks` (networking.py 250-271):
raise on an empty parent id, perform the children round trip, then for
each returned block append it and, when it has children and is not a
`child_page`, splice in its recursively fetched children.  `recFab` is the
recursive call at the next fuel level; the list recursion mirrors the
`for block in data.get("results", [])` loop. -/
def fab_loop (recFab : Nat → M (List Block)) : List Block → M (List Block)
  | [] => M.pure []
  | b :: rest =>
    M.bind
      (if b.hasChildren && !(b.type == "child_page") then recFab b.id else M.pure [])
      fun kids =>
        M.bind (fab_loop recFab rest) fun tail => M.pure (b :: (kids ++ tail))

def fetch_all_blocks_level (recFab : Nat → M (List Block)) (w : World) (pid : Nat) :
    M (List Block) :=
  if pid = 0 then M.throw Err.runtime
  else M.bind (M.emit (Ev.fetchBlocks pid)) fun _ => fab_loop recFab (w.children pid)

/-- `networking.fetch_all_blocks`, fuelled: `bf` bounds the depth of the
block-containment recursion (block trees are finite in the source's data
model; mention cycles do not pass through here). -/
def fetch_all_blocks (w : World) : Nat → Nat → M (List Block)
  | 0, _ => M.throw Err.fuel
  | bf + 1, pid => fetch_all_blocks_level (fetch_all_blocks w bf) w pid

/-- Whether `fetch_all_blocks w bf pid` has enough fuel to terminate
(purely in terms of the world's children maps). -/
def fabFuelOk (w : World) : Nat → Nat → Bool
  | 0, _ => false
  | bf + 1, pid =>
    pid == 0 ||
      (w.children pid).all fun b =>
        !(b.hasChildren && !(b.type == "child_page")) || fabFuelOk w bf b.id

/-- `htmltools.block_types_with_attachments()` (htmltools.py 39-40). -/
def block_types_with_attachments : List String :=
  ["image", "video", "audio", "file", "pdf"]

/-- `handle_attachments` (notion.py 657-673): download the URL; on
`RuntimeError` record a page error and skip, otherwise store an
`Attachment` in the page's URL-keyed attachment dict.  The stored value
keeps the attachment's `url` and `block_type`. -/
def handle_attachments (w : World) (np : NPage) (block_type : String) (url : Nat) :
    M NPage :=
  M.catchRuntime
    (M.bind (downloadM w url) fun _ =>
      M.pure { np with attachments := dinsert np.attachments url (url, block_type) })
    (M.pure { np with errors := np.errors + 1 })

/-- The block loop of `handle_page_special_cases` (notion.py 611-643):
`table` blocks get their row children (re)fetched and stored in the side
map; `child_database` blocks are expanded through
`get_database_from_notion` (`recD`) and the result — possibly `None` — is
passed to `add_database`; Notion-hosted attachment-bearing blocks go
through `handle_attachments`, with `find_url_for_block` raising
`RuntimeError` on an empty URL (utils.py 60-76). -/
def spc_loop (recD : Nat → M (Option NDb)) (w : World) (bf : Nat) :
    NPage → List Block → M NPage
  | np, [] => M.pure np
  | np, b :: rest =>
    M.bind
      (if b.type == "table" then
        M.bind (fetch_all_blocks w bf b.id) fun rows =>
          M.pure { np with tables_and_rows := dinsert np.tables_and_rows b.id rows }
      else M.pure np) fun np =>
    M.bind
      (if b.type == "child_database" then
        M.bind (recD b.id) fun d? =>
          M.pure { np with databases := np.databases ++ [d?.map NDb.id] }
      else M.pure np) fun np =>
    M.bind
      (if block_types_with_attachments.contains b.type then
        if b.attachType == "file" then
          if b.url = 0 then M.throw Err.runtime
          else handle_attachments w np b.type b.url
        else M.pure np
      else M.pure np) fun np =>
    spc_loop recD w bf np rest

/-- The `files`-properties loop of `handle_page_special_cases`
(notion.py 645-654): every URL found in a `files`-type property goes
through `handle_attachments` with block type `from_property`. -/
def files_prop_loop (w : World) : NPage → List Nat → M NPage
  | np, [] => M.pure np
  | np, u :: rest =>
    M.bind (handle_attachments w np "from_property" u) fun np =>
      files_prop_loop w np rest

/-- `handle_page_special_cases` (notion.py 606-654). -/
def handle_page_special_cases (recD : Nat → M (Option NDb)) (w : World) (bf : Nat)
    (np : NPage) (fileUrls : List Nat) : M NPage :=
  M.bind (spc_loop recD w bf np np.blocks) fun np => files_prop_loop w np fileUrls

/-- The mention scan of `get_subpages_or_subdatabases` (notion.py
687-727): walk the page's blocks collecting candidate subpage ids (from
`child_page` blocks and page mentions in `paragraph` rich text and
`table_row` cells) and candidate database ids (from database mentions),
in order, duplicates included. -/
def collect_rich_text (acc : List Nat × List Nat) (texts : List RichText) :
    List Nat × List Nat :=
  texts.foldl
    (fun acc rt =>
      let acc1 :=
        match rt.mentionPage with
        | some p => (acc.1 ++ [p], acc.2)
        | none => acc
      match rt.mentionDb with
      | some d => (acc1.1, acc1.2 ++ [d])
      | none => acc1)
    acc

def collect_step (acc : List Nat × List Nat) (b : Block) : List Nat × List Nat :=
  if b.type == "child_page" then (acc.1 ++ [b.id], acc.2)
  else if b.type == "table_row" || b.type == "paragraph" then
    let texts :=
      if b.type == "table_row" then b.cells.foldl (fun t c => t ++ c) []
      else b.richText
    collect_rich_text acc texts
  else acc

def collect_sub_ids (blocks : List Block) : List Nat × List Nat :=
  blocks.foldl collect_step ([], [])

/-- The subpage loop of `get_subpages_or_subdatabases` (notion.py
730-742): for each candidate id, `fetch_page` its properties (a network
round trip that happens before the claim attempt inside `get_page`), then
`get_page` it with the current page as parent; `None` results (claim lost)
are not appended. -/
def subpage_loop (recP : PageData → Option (Nat × String) → M (Option NPage))
    (w : World) (parent : Nat × String) :
    List SubItem → List Nat → M (List SubItem)
  | acc, [] => M.pure acc
  | acc, spid :: rest =>
    M.bind (fetchPageM w spid) fun pd =>
      M.bind (recP pd (some parent)) fun r? =>
        subpage_loop recP w parent
          (match r? with
           | some p => acc ++ [SubItem.page p]
           | none => acc)
          rest

/-- The sub-database loop of `get_subpages_or_subdatabases` (notion.py
744-755). -/
def subdb_loop (recD : Nat → M (Option NDb)) :
    List SubItem → List Nat → M (List SubItem)
  | acc, [] => M.pure acc
  | acc, did :: rest =>
    M.bind (recD did) fun d? =>
      subdb_loop recD
        (match d? with
         | some d => acc ++ [SubItem.db d]
         | none => acc)
        rest

/-- `get_subpages_or_subdatabases` (notion.py 676-757). -/
def get_subpages_or_subdatabases (recP : PageData → Option (Nat × String) → M (Option NPage))
    (recD : Nat → M (Option NDb)) (w : World) (np : NPage) : M (List SubItem) :=
  let ids := collect_sub_ids np.blocks
  M.bind (subpage_loop recP w (np.id, np.title) [] ids.1) fun acc =>
    subdb_loop recD acc ids.2

/-- The future loop of `get_pages_concurrently` (notion.py 522-538),
sequentialised: each page record is expanded by `get_page` (`recP`); a
raised exception is caught per future (`except Exception`, so everything
but the model's fuel marker) and that page is skipped; `None` results are
filtered out. -/
def pages_loop (recP : PageData → Option (Nat × String) → M (Option NPage)) :
    List NPage → List PageData → M (List NPage)
  | acc, [] => M.pure acc
  | acc, pd :: rest =>
    M.bind
      (M.catchAll
        (M.bind (recP pd none) fun r? =>
          M.pure
            (match r? with
             | some p => acc ++ [p]
             | none => acc))
        (M.pure acc))
      fun acc => pages_loop recP acc rest

/-- The final deduplication of `get_pages_concurrently` (notion.py 541):
`list({x.id: x for x in filtered}.values())` — first-occurrence order of
ids, last value per id. -/
def dedup_by_id (l : List NPage) : List NPage :=
  (l.foldl (fun d p => dinsert d p.id p) []).map (fun p => p.2)

/-- `get_pages_concurrently` (notion.py 509-545): worker-pool size
`min(50, len(pages))`; CPython's `ThreadPoolExecutor.__init__` raises
`ValueError` when `max_workers <= 0`, so an empty page list raises before
any future is created. -/
def get_pages_concurrently (recP : PageData → Option (Nat × String) → M (Option NPage))
    (pages : List PageData) : M (List NPage) :=
  let maximum_workers := if pages.length < 50 then pages.length else 50
  if maximum_workers = 0 then M.throw Err.valueError
  else M.bind (pages_loop recP [] pages) fun filtered => M.pure (dedup_by_id filtered)

/-- The fresh `NotionPage` as populated by `get_page` before the special
cases run (notion.py 551, 566-573): title, properties, blocks and the
block-by-id dict, plus the parent's title and id when given. -/
def mk_npage (pd : PageData) (parent : Option (Nat × String)) (blocks : List Block) :
    NPage where
  id := pd.id
  title := pd.title
  blocks := blocks
  blocks_by_id := blocks.foldl (fun d b => dinsert d b.id b) []
  tables_and_rows := []
  attachments := []
  errors := 0
  subpage_ids := []
  databases := []
  parent_page_id := match parent with | some pr => pr.1 | none => 0
  parent_page_title := match parent with | some pr => pr.2 | none => ""

/-- The merge loop at the end of `get_page` (notion.py 583-592):
returned subpages are added via `add_subpage`, returned databases via
`add_database`. -/
def merge_sub_items (np : NPage) (subs : List SubItem) : NPage :=
  subs.foldl
    (fun np it =>
      match it with
      | SubItem.page p => { np with subpage_ids := np.subpage_ids ++ [p.id] }
      | SubItem.db d => { np with databases := np.databases ++ [some d.id] })
    np

/-- The body of `get_page` after a successful claim (notion.py 563-603):
fetch the ordered block list, build the page, run the special cases
(tables, embedded databases, attachments), convert to HTML (pure, out of
model scope), recursively expand subpages and sub-databases, and merge
them in. -/
def get_page_rest (recP : PageData → Option (Nat × String) → M (Option NPage))
    (recD : Nat → M (Option NDb)) (w : World) (bf : Nat) (pd : PageData)
    (parent : Option (Nat × String)) : M (Option NPage) :=
  M.bind (fetch_all_blocks w bf pd.id) fun blocks =>
    M.bind (handle_page_special_cases recD w bf (mk_npage pd parent blocks) pd.fileUrls)
      fun np =>
        M.bind (get_subpages_or_subdatabases recP recD w np) fun subs =>
          M.pure (some (merge_sub_items np subs))

/-- One level of `get_page` (notion.py 548-603): `find_page_id` raises
`ValueError` on an empty id (utils.py 23-30); then the test-and-set claim —
losing it returns `None` without any fetch. -/
def get_page_level (recP : PageData → Option (Nat × String) → M (Option NPage))
    (recD : Nat → M (Option NDb)) (w : World) (bf : Nat) (pd : PageData)
    (parent : Option (Nat × String)) : M (Option NPage) :=
  if pd.id = 0 then M.throw Err.valueError
  else
    M.bind (record_fetched_object pd.id) fun ok =>
      if ok then get_page_rest recP recD w bf pd parent else M.pure none

/-- The body of `get_database_from_notion` after a successful claim
(notion.py 495-506): fetch the database info and title, query the items,
and expand them through the bounded pool. -/
def get_database_rest (recP : PageData → Option (Nat × String) → M (Option NPage))
    (w : World) (i : Nat) : M (Option NDb) :=
  M.bind (fetchDbInfoM w i) fun title =>
    M.bind (queryDbM w i) fun pages_info =>
      M.bind (get_pages_concurrently recP pages_info) fun pages =>
        M.pure (some { id := i, title := title, pages := pages })

/-- One level of `get_database_from_notion` (notion.py 479-506): claim the
requested id first — losing the claim returns `None` with no fetch at
all — then run the post-claim body. -/
def get_database_level (recP : PageData → Option (Nat × String) → M (Option NPage))
    (w : World) (i : Nat) : M (Option NDb) :=
  M.bind (record_fetched_object i) fun ok =>
    if ok then get_database_rest recP w i else M.pure none

/-- The mutually recursive pair (`get_page`, `get_database_from_notion`),
by fuel: level `f + 1` recurses into level `f` at every nested page or
database expansion.  Fuel exhaustion throws the uncatchable `Err.fuel`. -/
def expander (w : World) (bf : Nat) :
    Nat → (PageData → Option (Nat × String) → M (Option NPage)) × (Nat → M (Option NDb))
  | 0 => (fun _ _ => M.throw Err.fuel, fun _ => M.throw Err.fuel)
  | f + 1 =>
    let prev := expander w bf f
    (get_page_level prev.1 prev.2 w bf, get_database_level prev.1 w)

/-- `get_page` (notion.py 548-603) at recursion fuel `f` and block-walk
fuel `bf`. -/
def get_page (w : World) (bf f : Nat) (pd : PageData) (parent : Option (Nat × String)) :
    M (Option NPage) :=
  (expander w bf f).1 pd parent

/-- `get_database_from_notion` (notion.py 479-506) at recursion fuel `f`
and block-walk fuel `bf`. -/
def get_database_from_notion (w : World) (bf f : Nat) (i : Nat) : M (Option NDb) :=
  (expander w bf f).2 i

/-! ## Concrete worlds used by the claims -/

/-- The initial run state: fresh registry, empty trace
(`networking.create_fetched_object`). -/
def st0 : St := ⟨[], []⟩

/-- A cyclic mention graph: page 1 mentions page 2, page 2 mentions
page 1. -/
def cycleWorld : World where
  pageProps := fun i =>
    if i = 1 then some ⟨1, "one", []⟩
    else if i = 2 then some ⟨2, "two", []⟩
    else none
  children := fun i =>
    if i = 1 then [⟨10, "paragraph", false, [⟨some 2, none⟩], [], "", 0⟩]
    else if i = 2 then [⟨20, "paragraph", false, [⟨some 1, none⟩], [], "", 0⟩]
    else []
  dbInfo := fun _ => none
  dbQuery := fun _ => []
  downloadOk := fun _ => false

/-- A page that mentions the same page twice: page 1 holds two paragraph
blocks, each with a mention of page 2. -/
def mentionTwiceWorld : World where
  pageProps := fun i =>
    if i = 1 then some ⟨1, "one", []⟩
    else if i = 2 then some ⟨2, "two", []⟩
    else none
  children := fun i =>
    if i = 1 then
      [⟨10, "paragraph", false, [⟨some 2, none⟩], [], "", 0⟩,
       ⟨11, "paragraph", false, [⟨some 2, none⟩], [], "", 0⟩]
    else []
  dbInfo := fun _ => none
  dbQuery := fun _ => []
  downloadOk := fun _ => false

/-- Database 5 with three items; item 2 mentions page 99, which the server
does not have (404 `object_not_found`). -/
def siblingWorld : World where
  pageProps := fun i =>
    if i = 1 then some ⟨1, "a", []⟩
    else if i = 2 then some ⟨2, "b", []⟩
    else if i = 3 then some ⟨3, "c", []⟩
    else none
  children := fun i =>
    if i = 2 then [⟨20, "paragraph", false, [⟨some 99, none⟩], [], "", 0⟩]
    else []
  dbInfo := fun i => if i = 5 then some "db" else none
  dbQuery := fun i => if i = 5 then [⟨1, "a", []⟩, ⟨2, "b", []⟩, ⟨3, "c", []⟩] else []
  downloadOk := fun _ => false

/-- A page with two Notion-hosted image blocks referencing the same source
URL 77. -/
def dupUrlWorld : World where
  pageProps := fun i => if i = 1 then some ⟨1, "one", []⟩ else none
  children := fun i =>
    if i = 1 then
      [⟨10, "image", false, [], [], "file", 77⟩,
       ⟨11, "image", false, [], [], "file", 77⟩]
    else []
  dbInfo := fun _ => none
  dbQuery := fun _ => []
  downloadOk := fun u => u = 77

/-- A page with one table block (id 10) whose children are one `table_row`
block (id 11). -/
def tableWorld : World where
  pageProps := fun i => if i = 1 then some ⟨1, "one", []⟩ else none
  children := fun i =>
    if i = 1 then [⟨10, "table", true, [], [], "", 0⟩]
    else if i = 10 then [⟨11, "table_row", false, [], [[]], "", 0⟩]
    else []
  dbInfo := fun _ => none
  dbQuery := fun _ => []
  downloadOk := fun _ => false

/-- Database 5 exists but its query returns zero items. -/
def emptyDbWorld : World where
  pageProps := fun _ => none
  children := fun _ => []
  dbInfo := fun i => if i = 5 then some "db" else none
  dbQuery := fun _ => []
  downloadOk := fun _ => false

/-! ## Projections used in theorem statements -/

/-- The page produced by a `get_page` run, if any. -/
def result_page (r : Except Err (Option NPage) × St) : Option NPage :=
  match r.1 with
  | Except.ok p? => p?
  | Except.error _ => none

/-- The item-page ids of the database produced by a
`get_database_from_notion` run, if any. -/
def result_db_page_ids (r : Except Err (Option NDb) × St) : Option (List Nat) :=
  match r.1 with
  | Except.ok (some d) => some (d.pages.map NPage.id)
  | _ => none

/-! ## The registry: first claim wins, later claims lose (C1) -/

theorem record_subset (claimed : List Nat) (id : Nat) : claimed ⊆ (record claimed id).2 := by
  unfold record
  split
  · exact fun x hx => hx
  · exact fun x hx => List.mem_append_left _ hx

theorem results_for_of_mem (x : Nat) (calls : List Nat) :
    ∀ claimed, x ∈ claimed →
      results_for x claimed calls = List.replicate (calls.count x) false := by
  induction calls with
  | nil => intro claimed _; simp [results_for]
  | cons c cs ih =>
    intro claimed hx
    have hx' : x ∈ (record claimed c).2 := record_subset claimed c hx
    by_cases hcx : c = x
    · subst hcx
      have hrec : record claimed c = (false, claimed) := by
        simp [record, hx]
      simp [results_for, hrec, List.count_cons, ih _ (by simpa [hrec] using hx'),
        List.replicate_succ]
    · simp [results_for, hcx, ih _ hx', List.count_cons, Ne.symm hcx]

theorem results_for_of_not_mem (x : Nat) (calls : List Nat) :
    ∀ claimed, x ∉ claimed →
      results_for x claimed calls =
        if calls.count x = 0 then [] else true :: List.replicate (calls.count x - 1) false := by
  induction calls with
  | nil => intro claimed _; simp [results_for]
  | cons c cs ih =>
    intro claimed hx
    by_cases hcx : c = x
    · subst hcx
      have hrec : record claimed c = (true, claimed ++ [c]) := by
        simp [record, hx]
      have hmem : c ∈ claimed ++ [c] := by simp
      simp [results_for, hrec, List.count_cons,
        results_for_of_mem c cs _ hmem]
    · have hx' : x ∉ (record claimed c).2 := by
        unfold record
        split
        · exact hx
        · intro hmem
          rcases List.mem_append.mp hmem with h | h
          · exact hx h
          · exact hcx (List.mem_singleton.mp h).symm
      simp [results_for, hcx, ih _ hx', List.count_cons, Ne.symm hcx]

/-- C1: for every object id `X`, among any number of claim calls on `X`
within one run (`FetchedObject.record_fetched_object`), exactly the first
call returns `true` and every later call returns `false`; a recorded entry
is never removed, so the claimed set only grows. -/
theorem registry_claim_exactly_once (calls : List Nat) (init : List Nat) (x : Nat)
    (hx : x ∉ init) :
    (results_for x init calls =
      if calls.count x = 0 then [] else true :: List.replicate (calls.count x - 1) false)
    ∧ ∀ claimed id, claimed ⊆ (record claimed id).2 := by
  exact ⟨results_for_of_not_mem x calls init hx, record_subset⟩

/-- Witness for `registry_claim_exactly_once`: three claims on id 7 (with
an unrelated claim on 3 interleaved) answer `[true, false, false]`. -/
theorem registry_claim_exactly_once_witness :
    (7 : Nat) ∉ ([] : List Nat) ∧
      ((results_for 7 [] [7, 3, 7, 7] =
        if ([7, 3, 7, 7].count 7 = 0) then []
        else true :: List.replicate ([7, 3, 7, 7].count 7 - 1) false)
      ∧ ∀ claimed id, claimed ⊆ (record claimed id).2) := by
  exact ⟨by decide, registry_claim_exactly_once [7, 3, 7, 7] [] 7 (by decide)⟩

/-! ## The retry executor (C2, first half of C4) -/

/-- C2: the retry executor has a fixed budget of 4 attempts: three
timeouts followed by a success return the success payload on the fourth
attempt, and four timeouts raise `RuntimeError("No more retries left!")`
(`retriesExhausted`). -/
theorem retry_budget_four (d : Nat) :
    get_network_data [Outcome.timeout, Outcome.timeout, Outcome.timeout, Outcome.success d] =
      (Except.ok d, 4)
    ∧ get_network_data [Outcome.timeout, Outcome.timeout, Outcome.timeout, Outcome.timeout] =
      (Except.error Err.retriesExhausted, 4) := by
  exact ⟨rfl, rfl⟩

/-- Witness for `retry_budget_four` at payload 9. -/
theorem retry_budget_four_witness :
    get_network_data [Outcome.timeout, Outcome.timeout, Outcome.timeout, Outcome.success 9] =
      (Except.ok 9, 4)
    ∧ get_network_data [Outcome.timeout, Outcome.timeout, Outcome.timeout, Outcome.timeout] =
      (Except.error Err.retriesExhausted, 4) :=
  retry_budget_four 9

/-- C4: a response classified not-found (404 with `object_not_found`)
makes the retry layer raise on the very attempt that saw it — one attempt
performed, no retry — and during sibling expansion the error is caught per
future: in `siblingWorld`, item 2 (whose expansion hits the missing page
99) is excluded from database 5's result while siblings 1 and 3 are
kept. -/
theorem notfound_terminal_and_isolated (rest : List Outcome) :
    get_network_data (Outcome.notFound :: rest) = (Except.error Err.notFound, 1)
    ∧ result_db_page_ids (get_database_from_notion siblingWorld 1 3 5 st0) = some [1, 3] := by
  exact ⟨rfl, by decide⟩

/-- Witness for `notfound_terminal_and_isolated` with three timeouts after
the not-found outcome. -/
theorem notfound_terminal_and_isolated_witness :
    get_network_data (Outcome.notFound :: [Outcome.timeout, Outcome.timeout, Outcome.timeout]) =
      (Except.error Err.notFound, 1)
    ∧ result_db_page_ids (get_database_from_notion siblingWorld 1 3 5 st0) = some [1, 3] :=
  notfound_terminal_and_isolated [Outcome.timeout, Outcome.timeout, Outcome.timeout]

/-! ## Cursor pagination (C5) -/

theorem fetch_pages_info_spec (rlast : QueryResponse) (hlast : rlast.has_more = false) :
    ∀ (rs : List QueryResponse) (cursor : Option Nat), (∀ r ∈ rs, r.has_more = true) →
      fetch_pages_info_from_database (rs ++ [rlast]) cursor =
        Except.ok (((rs ++ [rlast]).map QueryResponse.results).flatten,
          cursor :: rs.map (fun r => some r.next_cursor)) := by
  intro rs
  induction rs with
  | nil =>
    intro cursor _
    simp [fetch_pages_info_from_database, hlast]
  | cons r rs ih =>
    intro cursor hmore
    have hr : r.has_more = true := hmore r (List.mem_cons_self r rs)
    have ih' := ih (some r.next_cursor) (fun r' h => hmore r' (List.mem_cons_of_mem r h))
    simp [fetch_pages_info_from_database, hr, ih']

/-- C5: for a sequence of query responses whose last response has
`has_more = false` (and all earlier ones `true`),
`fetch_pages_info_from_database` returns the concatenation of all result
pages in server order, with length the sum of the pages' result counts,
performing exactly one query round trip per result page and sending the
`next_cursor` of each non-final response as the next `start_cursor`. -/
theorem pagination_concatenates (rs : List QueryResponse) (rlast : QueryResponse)
    (hmore : ∀ r ∈ rs, r.has_more = true) (hlast : rlast.has_more = false) :
    fetch_pages_info_from_database (rs ++ [rlast]) none =
      Except.ok (((rs ++ [rlast]).map QueryResponse.results).flatten,
        none :: rs.map (fun r => some r.next_cursor))
    ∧ (((rs ++ [rlast]).map QueryResponse.results).flatten).length =
        ((rs ++ [rlast]).map (fun r => r.results.length)).sum
    ∧ (none :: rs.map (fun r => some r.next_cursor)).length = (rs ++ [rlast]).length := by
  refine ⟨fetch_pages_info_spec rlast hlast rs none hmore, ?_, ?_⟩
  · rw [List.length_flatten, List.map_map]
    simp [Function.comp_def]
  · simp

/-- Witness for `pagination_concatenates`: two result pages
`[1, 2]` (with `next_cursor` 9) then `[3]`: the items are `[1, 2, 3]` and
the two round trips send cursors `none` and `some 9`. -/
theorem pagination_concatenates_witness :
    fetch_pages_info_from_database
        [⟨[1, 2], true, 9⟩, ⟨[3], false, 0⟩] none =
      Except.ok ([1, 2, 3], [none, some 9]) := by
  have h := pagination_concatenates [⟨[1, 2], true, 9⟩] ⟨[3], false, 0⟩
    (by decide) (by decide)
  simpa using h.1

/-! ## The claim-lost branches of the expansion -/

/-- Losing the claim in `get_page` (notion.py 558-561) returns `None`
without recursing and without touching the network or the registry. -/
theorem get_page_already_claimed (w : World) (bf f : Nat) (pd : PageData)
    (parent : Option (Nat × String)) (s : St) (h : pd.id ∈ s.claimed) (h0 : pd.id ≠ 0) :
    get_page w bf (f + 1) pd parent s = (Except.ok none, s) := by
  simp [get_page, expander, get_page_level, M.bind, M.pure, record_fetched_object, record, h, h0]

/-- Losing the claim in `get_database_from_notion` (notion.py 491-493)
returns `None` without recursing and without touching the network or the
registry. -/
theorem get_database_already_claimed (w : World) (bf f : Nat) (i : Nat) (s : St)
    (h : i ∈ s.claimed) :
    get_database_from_notion w bf (f + 1) i s = (Except.ok none, s) := by
  simp [get_database_from_notion, expander, get_database_level, M.bind, M.pure,
    record_fetched_object, record, h]

/-! ## Re-claiming and re-fetching (C6) -/

/-- C6 counterexample: in `mentionTwiceWorld`, page 1 mentions page 2
twice.  After the first mention claims and expands page 2, the second
mention still performs a `fetch_page` network round trip for id 2 —
notion.py 734 fetches the page properties before `get_page` attempts the
claim — so the final trace carries two `fetchPage 2` events even though
the second claim attempt on 2 returned `false`. -/
theorem reclaim_refetches_properties :
    (get_page mentionTwiceWorld 1 3 ⟨1, "one", []⟩ none st0).2 =
      ⟨[1, 2], [Ev.fetchBlocks 1, Ev.fetchPage 2, Ev.fetchBlocks 2, Ev.fetchPage 2]⟩ := by
  decide

/-- C6 as amended: once the claim on an id returns `false`, the `get_page`
branch itself performs no fetch at all for that id (state and trace are
returned unchanged), and the object's block content is fetched only once —
but the `fetch_page` properties round trip of a mention happens before the
claim attempt, so an already-claimed mentioned page still costs one
properties fetch per mention (two `fetchPage 2` events vs one
`fetchBlocks 2` event in `mentionTwiceWorld`). -/
theorem reclaim_no_content_refetch :
    (∀ (w : World) (bf f : Nat) (pd : PageData) (parent : Option (Nat × String)) (s : St),
      pd.id ∈ s.claimed → pd.id ≠ 0 → get_page w bf (f + 1) pd parent s = (Except.ok none, s))
    ∧ ((get_page mentionTwiceWorld 1 3 ⟨1, "one", []⟩ none st0).2.trace.count
        (Ev.fetchBlocks 2) = 1)
    ∧ ((get_page mentionTwiceWorld 1 3 ⟨1, "one", []⟩ none st0).2.trace.count
        (Ev.fetchPage 2) = 2) := by
  refine ⟨?_, by decide, by decide⟩
  intro w bf f pd parent s h h0
  exact get_page_already_claimed w bf f pd parent s h h0

/-- Witness for `reclaim_no_content_refetch`: with id 2 already claimed,
`get_page` on page 2 returns `None` and leaves the state untouched. -/
theorem reclaim_no_content_refetch_witness :
    (PageData.mk 2 "two" []).id ∈ (St.mk [2] []).claimed
    ∧ get_page mentionTwiceWorld 1 1 ⟨2, "two", []⟩ none ⟨[2], []⟩ =
        (Except.ok none, ⟨[2], []⟩) :=
  ⟨by decide,
    reclaim_no_content_refetch.1 mentionTwiceWorld 1 0 ⟨2, "two", []⟩ none ⟨[2], []⟩
      (by decide) (by decide)⟩

/-! ## Duplicate attachment URLs (C7) -/

/-- C7 counterexample: in `dupUrlWorld`, two image blocks on page 1
reference the same source URL 77; expansion performs two downloads of that
URL, not one — `handle_attachments` (notion.py 657-673) downloads before
consulting the URL-keyed attachment dict. -/
theorem duplicate_url_downloads_twice :
    ¬ ((get_page dupUrlWorld 1 2 ⟨1, "one", []⟩ none st0).2.trace.count (Ev.download 77) = 1) := by
  decide

/-- C7 as amended: two blocks referencing the same source URL yield
exactly one `Attachment` entry in the page's URL-keyed attachment map (the
second `add_attachment` overwrites the first under the same key), but one
download per referencing block — two downloads here. -/
theorem duplicate_url_one_attachment :
    (result_page (get_page dupUrlWorld 1 2 ⟨1, "one", []⟩ none st0)).map NPage.attachments =
      some [(77, 77, "image")]
    ∧ (get_page dupUrlWorld 1 2 ⟨1, "one", []⟩ none st0).2.trace.count (Ev.download 77) = 2 := by
  exact ⟨by decide, by decide⟩

/-! ## Table rows and the page block list (C8) -/

/-- C8 counterexample: in `tableWorld`, the table block (id 10) has
`has_children = true` and is not a `child_page`, so `fetch_all_blocks`
(networking.py 266-269) descends into it and the row block (id 11) lands
in the page's normal ordered block list and in `blocks_by_id` — it is not
tracked only via the side map. -/
theorem table_rows_in_block_list :
    (result_page (get_page tableWorld 2 2 ⟨1, "one", []⟩ none st0)).map
        (fun np => np.blocks_by_id.any (fun p => p.1 == 11)) = some true := by
  decide

/-- C8 as amended: the table's rows are stored in the side map
`tables_and_rows` under the table block's id (notion.py 619-621), and
additionally appear in the page's normal ordered block list and
`blocks_by_id`, because the recursive block-children walk descends into
every non-`child_page` block with children. -/
theorem table_rows_side_map_and_blocks :
    (result_page (get_page tableWorld 2 2 ⟨1, "one", []⟩ none st0)).map
        (fun np => np.blocks.map Block.id) = some [10, 11]
    ∧ (result_page (get_page tableWorld 2 2 ⟨1, "one", []⟩ none st0)).map
        (fun np => np.blocks_by_id.map Prod.fst) = some [10, 11]
    ∧ (result_page (get_page tableWorld 2 2 ⟨1, "one", []⟩ none st0)).map
        (fun np => np.tables_and_rows.map (fun p => (p.1, p.2.map Block.id))) =
      some [(10, [11])] := by
  exact ⟨by decide, by decide, by decide⟩

/-! ## Forbidden user fetch and display names (C9) -/

/-- C9 counterexample: after a Forbidden user-directory fetch leaves the
user table empty, `get_username_for_user_id` on an unknown id returns the
empty string (notion.py 368-369), not the raw id. -/
theorem unknown_user_empty_string :
    get_username_for_user_id (get_notion_users (Except.error ()) []) "u1" ≠ "u1" := by
  decide

/-- C9 as amended: a Forbidden user-directory fetch is swallowed by
`get_notion_users`, which leaves the user table unchanged and returns (the
run continues).  For an id absent from the table,
`get_username_for_user_id` returns the empty string; the raw-id fallback
is performed by the rendering callers (`_people`, `_created_by`,
`_last_edited_by` in htmltools.py), modelled by
`display_username_for_user_id`. -/
theorem forbidden_users_degrade (users : List (String × String)) (uid : String)
    (h : dlookup users uid = none) :
    get_username_for_user_id users uid = ""
    ∧ display_username_for_user_id users uid = uid
    ∧ ∀ us, get_notion_users (Except.error ()) us = us := by
  refine ⟨?_, ?_, fun us => rfl⟩
  · simp [get_username_for_user_id, h]
  · simp [display_username_for_user_id, get_username_for_user_id, h]

/-- Witness for `forbidden_users_degrade` on the empty table and id
`"u1"`. -/
theorem forbidden_users_degrade_witness :
    get_username_for_user_id [] "u1" = ""
    ∧ display_username_for_user_id [] "u1" = "u1"
    ∧ ∀ us, get_notion_users (Except.error ()) us = us :=
  forbidden_users_degrade [] "u1" (by decide)

/-! ## The empty sibling set (C10) -/

/-- C10: for an empty page-record list, `get_pages_concurrently` computes
a worker-pool size of `min(50, 0) = 0` and raises (CPython's
`ThreadPoolExecutor` rejects `max_workers = 0` with `ValueError`) instead
of returning an empty list; hence expanding a database whose query returns
zero items (`emptyDbWorld`) fails with that `ValueError` rather than
producing a database with an empty item list. -/
theorem empty_database_raises
    (recP : PageData → Option (Nat × String) → M (Option NPage)) (s : St) :
    get_pages_concurrently recP [] s = (Except.error Err.valueError, s)
    ∧ (get_database_from_notion emptyDbWorld 1 2 5 st0).1 = Except.error Err.valueError := by
  exact ⟨rfl, rfl⟩

/-- Witness for `empty_database_raises` at the fuel-1 expander and the
initial state. -/
theorem empty_database_raises_witness :
    get_pages_concurrently (expander emptyDbWorld 1 1).1 [] st0 =
      (Except.error Err.valueError, st0)
    ∧ (get_database_from_notion emptyDbWorld 1 2 5 st0).1 = Except.error Err.valueError :=
  empty_database_raises (expander emptyDbWorld 1 1).1 st0

/-! ## Termination of cyclic expansion (C3)

The registry is the termination argument of the source: every recursive
entry into `get_page` or `get_database_from_notion` either loses the claim
and stops, or claims a fresh id.  With all claimable ids drawn from a
finite set `univ`, the number of unclaimed ids strictly decreases at every
successful claim, so fuel `univ.card + 1` can never run out.  `SoundP`
packages the invariants threaded through the mutual recursion: the state
stays well formed, the registry only grows, fuel is never exhausted, and a
postcondition holds for the produced value. -/

/-- Well-formed run state: recorded ids are distinct (the registry is a
dict) and drawn from `univ`. -/
def StOk (univ : Finset Nat) (s : St) : Prop :=
  s.claimed.Nodup ∧ ∀ x ∈ s.claimed, x ∈ univ

/-- Number of ids of `univ` not yet claimed: the termination measure. -/
def claimGap (univ : Finset Nat) (s : St) : Nat :=
  (univ \ s.claimed.toFinset).card

theorem claimGap_mono (univ : Finset Nat) {s s' : St} (h : s.claimed ⊆ s'.claimed) :
    claimGap univ s' ≤ claimGap univ s := by
  apply Finset.card_le_card
  apply Finset.sdiff_subset_sdiff (le_refl univ)
  intro x hx
  simp only [List.mem_toFinset] at hx ⊢
  exact h hx

theorem claimGap_claim_lt (univ : Finset Nat) {s : St} {id : Nat} (hid : id ∈ univ)
    (hnot : id ∉ s.claimed) (t : List Ev) :
    claimGap univ ⟨s.claimed ++ [id], t⟩ < claimGap univ s := by
  apply Finset.card_lt_card
  have hsub : univ \ (s.claimed ++ [id]).toFinset ⊆ univ \ s.claimed.toFinset := by
    apply Finset.sdiff_subset_sdiff (le_refl univ)
    intro x hx
    simp only [List.mem_toFinset] at hx ⊢
    exact List.mem_append_left _ hx
  refine (Finset.ssubset_iff_of_subset hsub).mpr ⟨id, ?_, ?_⟩
  · simp [Finset.mem_sdiff, hid, hnot]
  · simp

/-- The invariant transported by every computation of the expansion, at
fuel budget `k`: from a well-formed state with fewer than `k` unclaimed
ids, the computation preserves well-formedness, only grows the registry,
never exhausts its fuel, and its value (if any) satisfies `post`. -/
def SoundP {α : Type} (univ : Finset Nat) (k : Nat) (m : M α) (post : α → Prop) : Prop :=
  ∀ s, StOk univ s → claimGap univ s < k →
    StOk univ (m s).2 ∧ s.claimed ⊆ (m s).2.claimed
    ∧ (m s).1 ≠ Except.error Err.fuel
    ∧ ∀ a, (m s).1 = Except.ok a → post a

theorem soundP_pure {α : Type} (univ : Finset Nat) (k : Nat) (a : α) {post : α → Prop}
    (h : post a) : SoundP univ k (M.pure a) post := by
  intro s hs _
  refine ⟨hs, fun x hx => hx, by simp [M.pure], fun b hb => ?_⟩
  simp only [M.pure] at hb
  cases hb
  exact h

theorem soundP_throw {α : Type} (univ : Finset Nat) (k : Nat) (e : Err) (he : e ≠ Err.fuel)
    (post : α → Prop) : SoundP univ k (M.throw e : M α) post := by
  intro s hs _
  refine ⟨hs, fun x hx => hx, by simpa [M.throw] using he, fun b hb => ?_⟩
  simp [M.throw] at hb

theorem soundP_bind {α β : Type} {univ : Finset Nat} {k : Nat} {m : M α} {f : α → M β}
    {p : α → Prop} {q : β → Prop} (hm : SoundP univ k m p)
    (hf : ∀ a, p a → SoundP univ k (f a) q) : SoundP univ k (M.bind m f) q := by
  intro s hs hk
  have h1 := hm s hs hk
  cases hms : m s with
  | mk r s1 =>
    rw [hms] at h1
    cases r with
    | error e =>
      refine ⟨?_, ?_, ?_, ?_⟩
      · simpa [M.bind, hms] using h1.1
      · simp only [M.bind, hms]
        exact h1.2.1
      · simpa [M.bind, hms] using h1.2.2.1
      · intro b hb
        simp [M.bind, hms] at hb
    | ok a =>
      have hpa := h1.2.2.2 a rfl
      have h2 := hf a hpa s1 h1.1 (lt_of_le_of_lt (claimGap_mono univ h1.2.1) hk)
      refine ⟨?_, ?_, ?_, ?_⟩
      · simpa [M.bind, hms] using h2.1
      · simp only [M.bind, hms]
        exact subset_trans h1.2.1 h2.2.1
      · simpa [M.bind, hms] using h2.2.2.1
      · simpa [M.bind, hms] using h2.2.2.2

theorem soundP_weaken {α : Type} {univ : Finset Nat} {k : Nat} {m : M α}
    {p q : α → Prop} (hm : SoundP univ k m p) (h : ∀ a, p a → q a) :
    SoundP univ k m q := by
  intro s hs hk
  have h1 := hm s hs hk
  exact ⟨h1.1, h1.2.1, h1.2.2.1, fun a ha => h a (h1.2.2.2 a ha)⟩

theorem soundP_emit (univ : Finset Nat) (k : Nat) (e : Ev) {post : Unit → Prop}
    (h : post ()) : SoundP univ k (M.emit e) post := by
  intro s hs _
  refine ⟨⟨hs.1, hs.2⟩, fun x hx => hx, by simp [M.emit], fun a ha => ?_⟩
  cases a
  exact h

theorem soundP_catchAll {α : Type} {univ : Finset Nat} {k : Nat} {m h : M α}
    {p : α → Prop} (hm : SoundP univ k m p) (hh : SoundP univ k h p) :
    SoundP univ k (M.catchAll m h) p := by
  intro s hs hk
  have h1 := hm s hs hk
  cases hms : m s with
  | mk r s1 =>
    rw [hms] at h1
    cases r with
    | error e =>
      have hef : e ≠ Err.fuel := fun hef => h1.2.2.1 (by rw [hef])
      have h2 := hh s1 h1.1 (lt_of_le_of_lt (claimGap_mono univ h1.2.1) hk)
      refine ⟨?_, ?_, ?_, ?_⟩
      · simpa [M.catchAll, hms, hef] using h2.1
      · simp only [M.catchAll, hms, if_neg hef]
        exact subset_trans h1.2.1 h2.2.1
      · simpa [M.catchAll, hms, hef] using h2.2.2.1
      · simpa [M.catchAll, hms, hef] using h2.2.2.2
    | ok a =>
      refine ⟨?_, ?_, ?_, ?_⟩
      · simpa [M.catchAll, hms] using h1.1
      · simp only [M.catchAll, hms]
        exact h1.2.1
      · simp [M.catchAll, hms]
      · intro b hb
        simp only [M.catchAll, hms] at hb
        cases hb
        exact h1.2.2.2 a rfl

theorem soundP_catchRuntime {α : Type} {univ : Finset Nat} {k : Nat} {m h : M α}
    {p : α → Prop} (hm : SoundP univ k m p) (hh : SoundP univ k h p) :
    SoundP univ k (M.catchRuntime m h) p := by
  intro s hs hk
  have h1 := hm s hs hk
  cases hms : m s with
  | mk r s1 =>
    rw [hms] at h1
    cases r with
    | error e =>
      cases e with
      | runtime =>
        have h2 := hh s1 h1.1 (lt_of_le_of_lt (claimGap_mono univ h1.2.1) hk)
        refine ⟨?_, ?_, ?_, ?_⟩
        · simpa [M.catchRuntime, hms] using h2.1
        · simp only [M.catchRuntime, hms]
          exact subset_trans h1.2.1 h2.2.1
        · simpa [M.catchRuntime, hms] using h2.2.2.1
        · simpa [M.catchRuntime, hms] using h2.2.2.2
      | fuel => exact absurd rfl h1.2.2.1
      | notFound =>
        exact ⟨by simpa [M.catchRuntime, hms] using h1.1,
          by simp only [M.catchRuntime, hms]; exact h1.2.1,
          by simp [M.catchRuntime, hms], fun b hb => by simp [M.catchRuntime, hms] at hb⟩
      | forbidden =>
        exact ⟨by simpa [M.catchRuntime, hms] using h1.1,
          by simp only [M.catchRuntime, hms]; exact h1.2.1,
          by simp [M.catchRuntime, hms], fun b hb => by simp [M.catchRuntime, hms] at hb⟩
      | valueError =>
        exact ⟨by simpa [M.catchRuntime, hms] using h1.1,
          by simp only [M.catchRuntime, hms]; exact h1.2.1,
          by simp [M.catchRuntime, hms], fun b hb => by simp [M.catchRuntime, hms] at hb⟩
      | retriesExhausted =>
        exact ⟨by simpa [M.catchRuntime, hms] using h1.1,
          by simp only [M.catchRuntime, hms]; exact h1.2.1,
          by simp [M.catchRuntime, hms], fun b hb => by simp [M.catchRuntime, hms] at hb⟩
      | noResponse =>
        exact ⟨by simpa [M.catchRuntime, hms] using h1.1,
          by simp only [M.catchRuntime, hms]; exact h1.2.1,
          by simp [M.catchRuntime, hms], fun b hb => by simp [M.catchRuntime, hms] at hb⟩
    | ok a =>
      refine ⟨by simpa [M.catchRuntime, hms] using h1.1, ?_, by simp [M.catchRuntime, hms], ?_⟩
      · simp only [M.catchRuntime, hms]
        exact h1.2.1
      · intro b hb
        simp only [M.catchRuntime, hms] at hb
        cases hb
        exact h1.2.2.2 a rfl

/-! ### Closure hypotheses on the world

Every id the expansion can claim is drawn from `univ`: page ids come from
fetched page-properties objects (`PagePropsClosed`) and database query
results (`DbQueryClosed`); database ids are claimed verbatim from
`child_database` block ids and database mentions, so all blocks any
children listing can produce must carry database ids inside `univ`
(`BlockOk`, `ChildrenClosed`).  `BlockWalkOk` says the block-containment
walks terminate at block fuel `bf` (block trees are finite). -/

def BlockOk (univ : Finset Nat) (b : Block) : Prop :=
  (b.type = "child_database" → b.id ∈ univ)
  ∧ (∀ rt ∈ b.richText, ∀ d, rt.mentionDb = some d → d ∈ univ)
  ∧ (∀ c ∈ b.cells, ∀ rt ∈ c, ∀ d, rt.mentionDb = some d → d ∈ univ)

def PagePropsClosed (w : World) (univ : Finset Nat) : Prop :=
  ∀ i pd, w.pageProps i = some pd → pd.id ∈ univ

def DbQueryClosed (w : World) (univ : Finset Nat) : Prop :=
  ∀ i, ∀ pd ∈ w.dbQuery i, pd.id ∈ univ

def ChildrenClosed (w : World) (univ : Finset Nat) : Prop :=
  ∀ pid, ∀ b ∈ w.children pid, BlockOk univ b

def BlockWalkOk (w : World) (bf : Nat) : Prop :=
  ∀ pid, fabFuelOk w bf pid = true

/-! ### Soundness of the network primitives -/

theorem StOk_trace {univ : Finset Nat} {s : St} (t : List Ev) (hs : StOk univ s) :
    StOk univ ⟨s.claimed, t⟩ :=
  ⟨hs.1, hs.2⟩

theorem soundP_fetchPage {w : World} {univ : Finset Nat}
    (H1 : PagePropsClosed w univ) (k i : Nat) :
    SoundP univ k (fetchPageM w i) (fun pd => pd.id ∈ univ) := by
  intro s hs _
  cases hp : w.pageProps i with
  | some pd =>
    simp only [fetchPageM, M.bind, M.emit, M.pure, hp]
    exact ⟨StOk_trace _ hs, fun x hx => hx, by simp, fun a ha => by
      cases ha
      exact H1 i pd hp⟩
  | none =>
    simp only [fetchPageM, M.bind, M.emit, M.throw, hp]
    exact ⟨StOk_trace _ hs, fun x hx => hx, by simp, fun a ha => by simp at ha⟩

theorem soundP_fetchDbInfo {univ : Finset Nat} (w : World) (k i : Nat) :
    SoundP univ k (fetchDbInfoM w i) (fun _ => True) := by
  intro s hs _
  cases hp : w.dbInfo i with
  | some t =>
    simp only [fetchDbInfoM, M.bind, M.emit, M.pure, hp]
    exact ⟨StOk_trace _ hs, fun x hx => hx, by simp, fun a _ => trivial⟩
  | none =>
    simp only [fetchDbInfoM, M.bind, M.emit, M.throw, hp]
    exact ⟨StOk_trace _ hs, fun x hx => hx, by simp, fun a _ => trivial⟩

theorem soundP_queryDb {w : World} {univ : Finset Nat}
    (H2 : DbQueryClosed w univ) (k i : Nat) :
    SoundP univ k (queryDbM w i) (fun l => ∀ pd ∈ l, pd.id ∈ univ) := by
  intro s hs _
  simp only [queryDbM, M.bind, M.emit, M.pure]
  exact ⟨StOk_trace _ hs, fun x hx => hx, by simp, fun a ha => by
    cases ha
    exact H2 i⟩

theorem soundP_download {univ : Finset Nat} (w : World) (k u : Nat) :
    SoundP univ k (downloadM w u) (fun _ => True) := by
  intro s hs _
  cases hd : w.downloadOk u with
  | true =>
    simp only [downloadM, M.bind, M.emit, M.pure, hd, if_pos]
    exact ⟨StOk_trace _ hs, fun x hx => hx, by simp, fun a _ => trivial⟩
  | false =>
    simp only [downloadM, M.bind, M.emit, M.throw, hd, Bool.false_eq_true, if_false]
    exact ⟨StOk_trace _ hs, fun x hx => hx, by simp, fun a _ => trivial⟩

/-! ### Soundness of the block-children walk -/

theorem fab_loop_spec {w : World} {univ : Finset Nat} (bf : Nat)
    (ih : ∀ (pid : Nat) (s : St),
      ((fetch_all_blocks w bf pid) s).2.claimed = s.claimed
      ∧ (fabFuelOk w bf pid = true →
          ((fetch_all_blocks w bf pid) s).1 ≠ Except.error Err.fuel)
      ∧ (∀ bl, ((fetch_all_blocks w bf pid) s).1 = Except.ok bl →
          ∀ b ∈ bl, BlockOk univ b)) :
    ∀ (l : List Block) (s : St), (∀ b ∈ l, BlockOk univ b) →
      ((fab_loop (fetch_all_blocks w bf) l) s).2.claimed = s.claimed
      ∧ ((∀ b ∈ l, (b.hasChildren && !(b.type == "child_page")) = true →
            fabFuelOk w bf b.id = true) →
          ((fab_loop (fetch_all_blocks w bf) l) s).1 ≠ Except.error Err.fuel)
      ∧ (∀ bl, ((fab_loop (fetch_all_blocks w bf) l) s).1 = Except.ok bl →
          ∀ b ∈ bl, BlockOk univ b) := by
  intro l
  induction l with
  | nil =>
    intro s _
    refine ⟨rfl, by simp [fab_loop, M.pure], ?_⟩
    intro bl hbl b hb
    simp only [fab_loop, M.pure] at hbl
    cases hbl
    simp at hb
  | cons b rest ihl =>
    intro s hbl
    have hb := hbl b (List.mem_cons_self b rest)
    have hrest := fun b' h => hbl b' (List.mem_cons_of_mem b h)
    have hhead : ∀ s' : St,
        ((if b.hasChildren && !(b.type == "child_page") then
            fetch_all_blocks w bf b.id
          else M.pure []) s').2.claimed = s'.claimed
        ∧ (((b.hasChildren && !(b.type == "child_page")) = true →
              fabFuelOk w bf b.id = true) →
            ((if b.hasChildren && !(b.type == "child_page") then
                fetch_all_blocks w bf b.id
              else M.pure []) s').1 ≠ Except.error Err.fuel)
        ∧ (∀ kids, ((if b.hasChildren && !(b.type == "child_page") then
              fetch_all_blocks w bf b.id
            else M.pure []) s').1 = Except.ok kids → ∀ x ∈ kids, BlockOk univ x) := by
      intro s'
      by_cases hc : (b.hasChildren && !(b.type == "child_page")) = true
      · rw [if_pos hc]
        exact ⟨(ih b.id s').1, fun hf => (ih b.id s').2.1 (hf hc), (ih b.id s').2.2⟩
      · rw [if_neg hc]
        refine ⟨rfl, by simp [M.pure], ?_⟩
        intro kids hkids
        simp only [M.pure] at hkids
        cases hkids
        intro x hx
        simp at hx
    cases hh : (if b.hasChildren && !(b.type == "child_page") then
        fetch_all_blocks w bf b.id else M.pure []) s with
    | mk r1 s1 =>
      have hh1 := hhead s
      rw [hh] at hh1
      cases r1 with
      | error e =>
        refine ⟨?_, ?_, ?_⟩
        · simp only [fab_loop, M.bind, hh]
          exact hh1.1
        · intro hf
          have he : e ≠ Err.fuel := by
            intro hef
            subst hef
            exact hh1.2.1 (fun hc => hf b (List.mem_cons_self b rest) hc) rfl
          simp only [fab_loop, M.bind, hh]
          exact fun hcontra => he (by injection hcontra)
        · intro bl hblx
          simp only [fab_loop, M.bind, hh] at hblx
          exact Except.noConfusion hblx
      | ok kids =>
        have hkids : ∀ x ∈ kids, BlockOk univ x := hh1.2.2 kids rfl
        cases hr : (fab_loop (fetch_all_blocks w bf) rest) s1 with
        | mk r2 s2 =>
          have hrec := ihl s1 hrest
          rw [hr] at hrec
          cases r2 with
          | error e2 =>
            refine ⟨?_, ?_, ?_⟩
            · simp only [fab_loop, M.bind, hh, hr]
              rw [hrec.1, hh1.1]
            · intro hf
              have he : e2 ≠ Err.fuel := by
                intro hef
                subst hef
                exact hrec.2.1 (fun b' h hc => hf b' (List.mem_cons_of_mem b h) hc) rfl
              simp only [fab_loop, M.bind, hh, hr]
              exact fun hcontra => he (by injection hcontra)
            · intro bl hblx
              simp only [fab_loop, M.bind, hh, hr] at hblx
              exact Except.noConfusion hblx
          | ok tail =>
            refine ⟨?_, ?_, ?_⟩
            · simp only [fab_loop, M.bind, hh, hr, M.pure]
              rw [hrec.1, hh1.1]
            · intro _
              simp only [fab_loop, M.bind, hh, hr, M.pure]
              simp
            · intro bl hblx x hxbl
              simp only [fab_loop, M.bind, hh, hr, M.pure] at hblx
              cases hblx
              rcases List.mem_cons.mp hxbl with hx | hx
              · exact hx ▸ hb
              · rcases List.mem_append.mp hx with hx' | hx'
                · exact hkids x hx'
                · exact hrec.2.2 tail rfl x hx'

theorem fab_spec {w : World} {univ : Finset Nat} (H3 : ChildrenClosed w univ) :
    ∀ (bf pid : Nat) (s : St),
      ((fetch_all_blocks w bf pid) s).2.claimed = s.claimed
      ∧ (fabFuelOk w bf pid = true →
          ((fetch_all_blocks w bf pid) s).1 ≠ Except.error Err.fuel)
      ∧ (∀ bl, ((fetch_all_blocks w bf pid) s).1 = Except.ok bl →
          ∀ b ∈ bl, BlockOk univ b) := by
  intro bf
  induction bf with
  | zero =>
    intro pid s
    refine ⟨rfl, ?_, ?_⟩
    · intro hok
      simp [fabFuelOk] at hok
    · intro bl hbl
      simp only [fetch_all_blocks, M.throw] at hbl
      cases hbl
  | succ bf ih =>
    intro pid s
    by_cases hpid : pid = 0
    · subst hpid
      refine ⟨?_, ?_, ?_⟩
      · simp [fetch_all_blocks, fetch_all_blocks_level, M.throw]
      · intro _
        simp [fetch_all_blocks, fetch_all_blocks_level, M.throw]
      · intro bl hbl
        simp [fetch_all_blocks, fetch_all_blocks_level, M.throw] at hbl
    · have hl := fab_loop_spec bf ih (w.children pid)
        ⟨s.claimed, s.trace ++ [Ev.fetchBlocks pid]⟩ (H3 pid)
      refine ⟨?_, ?_, ?_⟩
      · simp only [fetch_all_blocks, fetch_all_blocks_level, if_neg hpid, M.bind, M.emit]
        exact hl.1
      · intro hok
        have hok' : ∀ b ∈ w.children pid,
            (b.hasChildren && !(b.type == "child_page")) = true →
              fabFuelOk w bf b.id = true := by
          intro b hbmem hc
          simp only [fabFuelOk, Bool.or_eq_true, beq_iff_eq, List.all_eq_true] at hok
          rcases hok with hok | hok
          · exact absurd hok hpid
          · have hb := hok b hbmem
            simp only [hc, Bool.not_true, Bool.false_eq_true, false_or] at hb
            exact hb
        simp only [fetch_all_blocks, fetch_all_blocks_level, if_neg hpid, M.bind, M.emit]
        exact hl.2.1 hok'
      · intro bl hbl
        apply hl.2.2 bl
        simpa only [fetch_all_blocks, fetch_all_blocks_level, if_neg hpid, M.bind, M.emit]
          using hbl

theorem soundP_fab {w : World} {univ : Finset Nat} (H3 : ChildrenClosed w univ)
    {bf : Nat} (HB : BlockWalkOk w bf) (k pid : Nat) :
    SoundP univ k (fetch_all_blocks w bf pid) (fun bl => ∀ b ∈ bl, BlockOk univ b) := by
  intro s hs _
  have h := fab_spec H3 bf pid s
  refine ⟨?_, ?_, h.2.1 (HB pid), h.2.2⟩
  · exact ⟨h.1 ▸ hs.1, h.1 ▸ hs.2⟩
  · intro x hx
    rw [h.1]
    exact hx

/-! ### Soundness of the special-case handling -/

theorem soundP_handle_attachments {univ : Finset Nat} (w : World) (k : Nat)
    (np : NPage) (bt : String) (u : Nat) :
    SoundP univ k (handle_attachments w np bt u) (fun np' => np'.blocks = np.blocks) := by
  unfold handle_attachments
  exact soundP_catchRuntime
    (soundP_bind (soundP_download w k u) (fun _ _ => soundP_pure univ k _ rfl))
    (soundP_pure univ k _ rfl)

theorem soundP_spc_loop {w : World} {univ : Finset Nat} {bf : Nat}
    {recD : Nat → M (Option NDb)} {k : Nat}
    (H3 : ChildrenClosed w univ) (HB : BlockWalkOk w bf)
    (HD : ∀ i, i ∈ univ → SoundP univ k (recD i) (fun _ => True)) :
    ∀ (l : List Block) (np : NPage), (∀ b ∈ l, BlockOk univ b) →
      SoundP univ k (spc_loop recD w bf np l) (fun np' => np'.blocks = np.blocks) := by
  intro l
  induction l with
  | nil =>
    intro np _
    simp only [spc_loop]
    exact soundP_pure univ k np rfl
  | cons b rest ihl =>
    intro np hbl
    have hb := hbl b (List.mem_cons_self b rest)
    have hrest := fun b' h => hbl b' (List.mem_cons_of_mem b h)
    simp only [spc_loop]
    have h1 : SoundP univ k
        (if b.type == "table" then
          M.bind (fetch_all_blocks w bf b.id) fun rows =>
            M.pure { np with tables_and_rows := dinsert np.tables_and_rows b.id rows }
        else M.pure np) (fun np1 => np1.blocks = np.blocks) := by
      by_cases ht : (b.type == "table") = true
      · rw [if_pos ht]
        exact soundP_bind (soundP_fab H3 HB k b.id) (fun _ _ => soundP_pure univ k _ rfl)
      · rw [if_neg ht]
        exact soundP_pure univ k np rfl
    refine soundP_bind h1 (fun np1 hnp1 => ?_)
    have h2 : SoundP univ k
        (if b.type == "child_database" then
          M.bind (recD b.id) fun d? =>
            M.pure { np1 with databases := np1.databases ++ [d?.map NDb.id] }
        else M.pure np1) (fun np2 => np2.blocks = np.blocks) := by
      by_cases hd : (b.type == "child_database") = true
      · rw [if_pos hd]
        have hid : b.id ∈ univ := hb.1 (beq_iff_eq.mp hd)
        exact soundP_bind (HD b.id hid) (fun _ _ => soundP_pure univ k _ hnp1)
      · rw [if_neg hd]
        exact soundP_pure univ k np1 hnp1
    refine soundP_bind h2 (fun np2 hnp2 => ?_)
    have h3 : SoundP univ k
        (if block_types_with_attachments.contains b.type then
          if b.attachType == "file" then
            if b.url = 0 then M.throw Err.runtime
            else handle_attachments w np2 b.type b.url
          else M.pure np2
        else M.pure np2) (fun np3 => np3.blocks = np.blocks) := by
      by_cases hc1 : (block_types_with_attachments.contains b.type) = true
      · rw [if_pos hc1]
        by_cases hc2 : (b.attachType == "file") = true
        · rw [if_pos hc2]
          by_cases hc3 : b.url = 0
          · rw [if_pos hc3]
            exact soundP_throw univ k Err.runtime (by simp) _
          · rw [if_neg hc3]
            exact soundP_weaken (soundP_handle_attachments w k np2 b.type b.url)
              (fun np3 h => h.trans hnp2)
        · rw [if_neg hc2]
          exact soundP_pure univ k np2 hnp2
      · rw [if_neg hc1]
        exact soundP_pure univ k np2 hnp2
    refine soundP_bind h3 (fun np3 hnp3 => ?_)
    exact soundP_weaken (ihl np3 hrest) (fun np' h => h.trans hnp3)

theorem soundP_files_prop_loop {univ : Finset Nat} (w : World) (k : Nat) :
    ∀ (urls : List Nat) (np : NPage),
      SoundP univ k (files_prop_loop w np urls) (fun np' => np'.blocks = np.blocks) := by
  intro urls
  induction urls with
  | nil =>
    intro np
    simp only [files_prop_loop]
    exact soundP_pure univ k np rfl
  | cons u rest ih =>
    intro np
    simp only [files_prop_loop]
    refine soundP_bind (soundP_handle_attachments w k np "from_property" u)
      (fun np1 hnp1 => ?_)
    exact soundP_weaken (ih np1) (fun np' h => h.trans hnp1)

theorem soundP_handle_page_special_cases {w : World} {univ : Finset Nat} {bf : Nat}
    {recD : Nat → M (Option NDb)} {k : Nat}
    (H3 : ChildrenClosed w univ) (HB : BlockWalkOk w bf)
    (HD : ∀ i, i ∈ univ → SoundP univ k (recD i) (fun _ => True))
    (np : NPage) (fileUrls : List Nat) (hbl : ∀ b ∈ np.blocks, BlockOk univ b) :
    SoundP univ k (handle_page_special_cases recD w bf np fileUrls)
      (fun np' => np'.blocks = np.blocks) := by
  unfold handle_page_special_cases
  refine soundP_bind (soundP_spc_loop H3 HB HD np.blocks np hbl) (fun np1 hnp1 => ?_)
  exact soundP_weaken (soundP_files_prop_loop w k fileUrls np1) (fun np' h => h.trans hnp1)

/-! ### The collected database-mention ids stay inside `univ` -/

theorem mem_foldl_append {α : Type} :
    ∀ (l : List (List α)) (acc : List α) (x : α),
      x ∈ l.foldl (fun t c => t ++ c) acc → x ∈ acc ∨ ∃ c ∈ l, x ∈ c := by
  intro l
  induction l with
  | nil =>
    intro acc x hx
    exact Or.inl hx
  | cons c l ih =>
    intro acc x hx
    rcases ih (acc ++ c) x hx with h | ⟨c', hc', hx'⟩
    · rcases List.mem_append.mp h with h' | h'
      · exact Or.inl h'
      · exact Or.inr ⟨c, List.mem_cons_self c l, h'⟩
    · exact Or.inr ⟨c', List.mem_cons_of_mem c hc', hx'⟩

theorem collect_rich_text_snd {univ : Finset Nat} :
    ∀ (texts : List RichText) (acc : List Nat × List Nat),
      (∀ rt ∈ texts, ∀ d, rt.mentionDb = some d → d ∈ univ) →
      (∀ d ∈ acc.2, d ∈ univ) →
      ∀ d ∈ (collect_rich_text acc texts).2, d ∈ univ := by
  intro texts
  induction texts with
  | nil =>
    intro acc _ hacc
    exact hacc
  | cons rt ts ih =>
    intro acc hts hacc
    have hrt := hts rt (List.mem_cons_self rt ts)
    have hts' := fun rt' h => hts rt' (List.mem_cons_of_mem rt h)
    show ∀ d ∈ (collect_rich_text _ ts).2, d ∈ univ
    apply ih _ hts'
    cases hp : rt.mentionPage with
    | none =>
      cases hd : rt.mentionDb with
      | none => simpa [hp, hd] using hacc
      | some d0 =>
        simp only [hp, hd]
        intro d hdm
        rcases List.mem_append.mp hdm with h | h
        · exact hacc d h
        · exact (List.mem_singleton.mp h) ▸ hrt d0 hd
    | some p0 =>
      cases hd : rt.mentionDb with
      | none => simpa [hp, hd] using hacc
      | some d0 =>
        simp only [hp, hd]
        intro d hdm
        rcases List.mem_append.mp hdm with h | h
        · exact hacc d h
        · exact (List.mem_singleton.mp h) ▸ hrt d0 hd

theorem collect_step_snd {univ : Finset Nat} {b : Block} (hb : BlockOk univ b)
    (acc : List Nat × List Nat) (hacc : ∀ d ∈ acc.2, d ∈ univ) :
    ∀ d ∈ (collect_step acc b).2, d ∈ univ := by
  unfold collect_step
  by_cases h1 : (b.type == "child_page") = true
  · rw [if_pos h1]
    exact hacc
  · rw [if_neg h1]
    by_cases h2 : (b.type == "table_row" || b.type == "paragraph") = true
    · rw [if_pos h2]
      by_cases h3 : (b.type == "table_row") = true
      · rw [if_pos h3]
        apply collect_rich_text_snd _ acc _ hacc
        intro rt hrt d hd
        rcases mem_foldl_append b.cells [] rt hrt with h | ⟨c, hc, hrtc⟩
        · simp at h
        · exact hb.2.2 c hc rt hrtc d hd
      · rw [if_neg h3]
        exact collect_rich_text_snd _ acc hb.2.1 hacc
    · rw [if_neg h2]
      exact hacc

theorem collect_sub_ids_snd {univ : Finset Nat} :
    ∀ (blocks : List Block) (acc : List Nat × List Nat),
      (∀ b ∈ blocks, BlockOk univ b) → (∀ d ∈ acc.2, d ∈ univ) →
      ∀ d ∈ (blocks.foldl collect_step acc).2, d ∈ univ := by
  intro blocks
  induction blocks with
  | nil =>
    intro acc _ hacc
    exact hacc
  | cons b rest ih =>
    intro acc hbl hacc
    exact ih (collect_step acc b) (fun b' h => hbl b' (List.mem_cons_of_mem b h))
      (collect_step_snd (hbl b (List.mem_cons_self b rest)) acc hacc)

/-! ### Soundness of subpage, sub-database and sibling loops -/

theorem soundP_subpage_loop {w : World} {univ : Finset Nat}
    {recP : PageData → Option (Nat × String) → M (Option NPage)} {k : Nat}
    (H1 : PagePropsClosed w univ)
    (HP : ∀ pd par, pd.id ∈ univ ∨ pd.id = 0 → SoundP univ k (recP pd par) (fun _ => True)) :
    ∀ (pids : List Nat) (acc : List SubItem) (par : Nat × String),
      SoundP univ k (subpage_loop recP w par acc pids) (fun _ => True) := by
  intro pids
  induction pids with
  | nil =>
    intro acc par
    simp only [subpage_loop]
    exact @soundP_pure _ univ k acc (fun _ => True) trivial
  | cons spid rest ih =>
    intro acc par
    simp only [subpage_loop]
    refine soundP_bind (soundP_fetchPage H1 k spid) (fun pd hpd => ?_)
    refine soundP_bind (HP pd (some par) (Or.inl hpd)) (fun r? _ => ?_)
    exact ih _ par

theorem soundP_subdb_loop {univ : Finset Nat} {recD : Nat → M (Option NDb)} {k : Nat}
    (HD : ∀ i, i ∈ univ → SoundP univ k (recD i) (fun _ => True)) :
    ∀ (dids : List Nat) (acc : List SubItem), (∀ d ∈ dids, d ∈ univ) →
      SoundP univ k (subdb_loop recD acc dids) (fun _ => True) := by
  intro dids
  induction dids with
  | nil =>
    intro acc _
    simp only [subdb_loop]
    exact @soundP_pure _ univ k acc (fun _ => True) trivial
  | cons did rest ih =>
    intro acc hd
    simp only [subdb_loop]
    refine soundP_bind (HD did (hd did (List.mem_cons_self did rest))) (fun d? _ => ?_)
    exact ih _ (fun d h => hd d (List.mem_cons_of_mem did h))

theorem soundP_get_subpages {w : World} {univ : Finset Nat}
    {recP : PageData → Option (Nat × String) → M (Option NPage)}
    {recD : Nat → M (Option NDb)} {k : Nat}
    (H1 : PagePropsClosed w univ)
    (HP : ∀ pd par, pd.id ∈ univ ∨ pd.id = 0 → SoundP univ k (recP pd par) (fun _ => True))
    (HD : ∀ i, i ∈ univ → SoundP univ k (recD i) (fun _ => True))
    (np : NPage) (hbl : ∀ b ∈ np.blocks, BlockOk univ b) :
    SoundP univ k (get_subpages_or_subdatabases recP recD w np) (fun _ => True) := by
  unfold get_subpages_or_subdatabases
  refine soundP_bind (soundP_subpage_loop H1 HP _ [] (np.id, np.title)) (fun acc _ => ?_)
  exact soundP_subdb_loop HD _ acc (collect_sub_ids_snd np.blocks ([], []) hbl (by simp))

theorem soundP_pages_loop {univ : Finset Nat}
    {recP : PageData → Option (Nat × String) → M (Option NPage)} {k : Nat}
    (HP : ∀ pd par, pd.id ∈ univ ∨ pd.id = 0 → SoundP univ k (recP pd par) (fun _ => True)) :
    ∀ (pages : List PageData) (acc : List NPage), (∀ pd ∈ pages, pd.id ∈ univ) →
      SoundP univ k (pages_loop recP acc pages) (fun _ => True) := by
  intro pages
  induction pages with
  | nil =>
    intro acc _
    simp only [pages_loop]
    exact @soundP_pure _ univ k acc (fun _ => True) trivial
  | cons pd rest ih =>
    intro acc hp
    simp only [pages_loop]
    refine soundP_bind
      (soundP_catchAll
        (soundP_bind (HP pd none (Or.inl (hp pd (List.mem_cons_self pd rest))))
          (fun r? _ => @soundP_pure _ univ k _ (fun _ => True) trivial))
        (@soundP_pure _ univ k acc (fun _ => True) trivial))
      (fun acc' _ => ?_)
    exact ih acc' (fun pd' h => hp pd' (List.mem_cons_of_mem pd h))

theorem soundP_get_pages_concurrently {univ : Finset Nat}
    {recP : PageData → Option (Nat × String) → M (Option NPage)} {k : Nat}
    (HP : ∀ pd par, pd.id ∈ univ ∨ pd.id = 0 → SoundP univ k (recP pd par) (fun _ => True))
    (pages : List PageData) (hp : ∀ pd ∈ pages, pd.id ∈ univ) :
    SoundP univ k (get_pages_concurrently recP pages) (fun _ => True) := by
  unfold get_pages_concurrently
  by_cases hmw : (if pages.length < 50 then pages.length else 50) = 0
  · rw [if_pos hmw]
    exact soundP_throw univ k Err.valueError (by simp) _
  · rw [if_neg hmw]
    exact soundP_bind (soundP_pages_loop HP pages [] hp)
      (fun l _ => @soundP_pure _ univ k _ (fun _ => True) trivial)

/-! ### Soundness of one expansion level -/

theorem soundP_get_page_rest {w : World} {univ : Finset Nat} {bf : Nat}
    {recP : PageData → Option (Nat × String) → M (Option NPage)}
    {recD : Nat → M (Option NDb)} {k : Nat}
    (H1 : PagePropsClosed w univ) (H3 : ChildrenClosed w univ) (HB : BlockWalkOk w bf)
    (HP : ∀ pd par, pd.id ∈ univ ∨ pd.id = 0 → SoundP univ k (recP pd par) (fun _ => True))
    (HD : ∀ i, i ∈ univ → SoundP univ k (recD i) (fun _ => True))
    (pd : PageData) (par : Option (Nat × String)) :
    SoundP univ k (get_page_rest recP recD w bf pd par) (fun _ => True) := by
  unfold get_page_rest
  refine soundP_bind (soundP_fab H3 HB k pd.id) (fun blocks hbl => ?_)
  refine soundP_bind
    (soundP_handle_page_special_cases H3 HB HD (mk_npage pd par blocks) pd.fileUrls hbl)
    (fun np1 hnp1 => ?_)
  refine soundP_bind (soundP_get_subpages H1 HP HD np1 ?_) (fun subs _ => ?_)
  · rw [hnp1]
    exact hbl
  · exact @soundP_pure _ univ k _ (fun _ => True) trivial

theorem soundP_get_database_rest {w : World} {univ : Finset Nat}
    {recP : PageData → Option (Nat × String) → M (Option NPage)} {k : Nat}
    (H2 : DbQueryClosed w univ)
    (HP : ∀ pd par, pd.id ∈ univ ∨ pd.id = 0 → SoundP univ k (recP pd par) (fun _ => True))
    (i : Nat) :
    SoundP univ k (get_database_rest recP w i) (fun _ => True) := by
  unfold get_database_rest
  refine soundP_bind (soundP_fetchDbInfo w k i) (fun title _ => ?_)
  refine soundP_bind (soundP_queryDb H2 k i) (fun pages hpg => ?_)
  refine soundP_bind (soundP_get_pages_concurrently HP pages hpg) (fun pgs _ => ?_)
  exact @soundP_pure _ univ k _ (fun _ => True) trivial

theorem soundP_get_page_level {w : World} {univ : Finset Nat} {bf : Nat}
    {recP : PageData → Option (Nat × String) → M (Option NPage)}
    {recD : Nat → M (Option NDb)} {k : Nat}
    (H1 : PagePropsClosed w univ) (H3 : ChildrenClosed w univ) (HB : BlockWalkOk w bf)
    (HP : ∀ pd par, pd.id ∈ univ ∨ pd.id = 0 → SoundP univ k (recP pd par) (fun _ => True))
    (HD : ∀ i, i ∈ univ → SoundP univ k (recD i) (fun _ => True))
    (pd : PageData) (par : Option (Nat × String)) (hpd : pd.id ∈ univ ∨ pd.id = 0) :
    SoundP univ (k + 1) (get_page_level recP recD w bf pd par) (fun _ => True) := by
  intro s hs hk
  by_cases h0 : pd.id = 0
  · have hrun : get_page_level recP recD w bf pd par s = (Except.error Err.valueError, s) := by
      simp [get_page_level, h0, M.throw]
    rw [hrun]
    exact ⟨hs, fun x hx => hx, by simp, fun a ha => by simp at ha⟩
  · by_cases hmem : pd.id ∈ s.claimed
    · have hrun : get_page_level recP recD w bf pd par s = (Except.ok none, s) := by
        simp [get_page_level, h0, hmem, M.bind, M.pure, record_fetched_object, record]
      rw [hrun]
      exact ⟨hs, fun x hx => hx, by simp, fun a _ => trivial⟩
    · have hrun : get_page_level recP recD w bf pd par s =
          get_page_rest recP recD w bf pd par { s with claimed := s.claimed ++ [pd.id] } := by
        simp [get_page_level, h0, hmem, M.bind, record_fetched_object, record]
      have hid : pd.id ∈ univ := hpd.resolve_right h0
      have hs1 : StOk univ { s with claimed := s.claimed ++ [pd.id] } := by
        constructor
        · refine List.Nodup.append hs.1 (List.nodup_singleton _) ?_
          intro a ha ha1
          rw [List.mem_singleton] at ha1
          exact hmem (ha1 ▸ ha)
        · intro x hx
          rcases List.mem_append.mp hx with h | h
          · exact hs.2 x h
          · exact (List.mem_singleton.mp h) ▸ hid
      have hgap : claimGap univ { s with claimed := s.claimed ++ [pd.id] } < k := by
        have hlt := claimGap_claim_lt univ hid hmem s.trace
        exact lt_of_lt_of_le hlt (Nat.lt_succ_iff.mp hk)
      have hrest := soundP_get_page_rest H1 H3 HB HP HD pd par _ hs1 hgap
      rw [hrun]
      exact ⟨hrest.1, fun x hx => hrest.2.1 (List.mem_append_left _ hx),
        hrest.2.2.1, fun a _ => trivial⟩

theorem soundP_get_database_level {w : World} {univ : Finset Nat}
    {recP : PageData → Option (Nat × String) → M (Option NPage)} {k : Nat}
    (H2 : DbQueryClosed w univ)
    (HP : ∀ pd par, pd.id ∈ univ ∨ pd.id = 0 → SoundP univ k (recP pd par) (fun _ => True))
    (i : Nat) (hi : i ∈ univ) :
    SoundP univ (k + 1) (get_database_level recP w i) (fun _ => True) := by
  intro s hs hk
  by_cases hmem : i ∈ s.claimed
  · have hrun : get_database_level recP w i s = (Except.ok none, s) := by
      simp [get_database_level, hmem, M.bind, M.pure, record_fetched_object, record]
    rw [hrun]
    exact ⟨hs, fun x hx => hx, by simp, fun a _ => trivial⟩
  · have hrun : get_database_level recP w i s =
        get_database_rest recP w i { s with claimed := s.claimed ++ [i] } := by
      simp [get_database_level, hmem, M.bind, record_fetched_object, record]
    have hs1 : StOk univ { s with claimed := s.claimed ++ [i] } := by
      constructor
      · refine List.Nodup.append hs.1 (List.nodup_singleton _) ?_
        intro a ha ha1
        rw [List.mem_singleton] at ha1
        exact hmem (ha1 ▸ ha)
      · intro x hx
        rcases List.mem_append.mp hx with h | h
        · exact hs.2 x h
        · exact (List.mem_singleton.mp h) ▸ hi
    have hgap : claimGap univ { s with claimed := s.claimed ++ [i] } < k := by
      have hlt := claimGap_claim_lt univ hi hmem s.trace
      exact lt_of_lt_of_le hlt (Nat.lt_succ_iff.mp hk)
    have hrest := soundP_get_database_rest H2 HP i _ hs1 hgap
    rw [hrun]
    exact ⟨hrest.1, fun x hx => hrest.2.1 (List.mem_append_left _ hx),
      hrest.2.2.1, fun a _ => trivial⟩

/-! ### Soundness of the whole mutual recursion, by induction on the fuel -/

theorem expander_sound {w : World} {univ : Finset Nat} {bf : Nat}
    (H1 : PagePropsClosed w univ) (H2 : DbQueryClosed w univ)
    (H3 : ChildrenClosed w univ) (HB : BlockWalkOk w bf) :
    ∀ f : Nat,
      (∀ pd par, pd.id ∈ univ ∨ pd.id = 0 →
        SoundP univ f (get_page w bf f pd par) (fun _ => True))
      ∧ (∀ i, i ∈ univ →
        SoundP univ f (get_database_from_notion w bf f i) (fun _ => True)) := by
  intro f
  induction f with
  | zero =>
    constructor
    · intro pd par _ s _ hk
      exact absurd hk (Nat.not_lt_zero _)
    · intro i _ s _ hk
      exact absurd hk (Nat.not_lt_zero _)
  | succ f ih =>
    constructor
    · intro pd par hpd
      exact soundP_get_page_level H1 H3 HB ih.1 ih.2 pd par hpd
    · intro i hi
      exact soundP_get_database_level H2 ih.1 i hi

/-- C3: for every mention graph — cyclic ones included — page/database
expansion terminates, and no id is expanded twice.  Hypotheses: every id
the run can claim (fetched page ids, query-result ids, `child_database`
ids and database-mention ids) lies in the finite set `univ`
(`PagePropsClosed`, `DbQueryClosed`, `ChildrenClosed`), and the
block-containment walks terminate at block fuel `bf` (`BlockWalkOk` —
block trees are finite; mention cycles do not pass through them).  Then
with recursion fuel `f > univ.card`, expansion from a fresh registry never
exhausts its fuel (the model's rendering of termination), the set of
claimed — i.e. expanded — ids has no duplicates, and the claim-lost
branches of `get_page` and `get_database_from_notion` return `None`
without recursing, leaving the state untouched. -/
theorem cyclic_expansion_terminates (w : World) (univ : Finset Nat) (bf : Nat)
    (H1 : PagePropsClosed w univ) (H2 : DbQueryClosed w univ)
    (H3 : ChildrenClosed w univ) (HB : BlockWalkOk w bf)
    (pd : PageData) (hpd : pd.id ∈ univ) (f : Nat) (hf : univ.card < f) :
    ((get_page w bf f pd none st0).1 ≠ Except.error Err.fuel)
    ∧ ((get_page w bf f pd none st0).2.claimed.Nodup)
    ∧ (∀ i, i ∈ univ → (get_database_from_notion w bf f i st0).1 ≠ Except.error Err.fuel)
    ∧ (∀ (f' : Nat) (pd' : PageData) (par : Option (Nat × String)) (s : St),
        pd'.id ∈ s.claimed → pd'.id ≠ 0 →
        get_page w bf (f' + 1) pd' par s = (Except.ok none, s))
    ∧ (∀ (f' i : Nat) (s : St), i ∈ s.claimed →
        get_database_from_notion w bf (f' + 1) i s = (Except.ok none, s)) := by
  have hs0 : StOk univ st0 := ⟨List.nodup_nil, by simp [st0]⟩
  have hgap : claimGap univ st0 < f := by
    simpa [claimGap, st0] using hf
  have hmain := (expander_sound H1 H2 H3 HB f).1 pd none (Or.inl hpd) st0 hs0 hgap
  have hdb := fun i hi => (expander_sound H1 H2 H3 HB f).2 i hi st0 hs0 hgap
  exact ⟨hmain.2.2.1, hmain.1.1, fun i hi => (hdb i hi).2.2.1,
    fun f' pd' par s h h0 => get_page_already_claimed w bf f' pd' par s h h0,
    fun f' i s h => get_database_already_claimed w bf f' i s h⟩

/-- Witness for `cyclic_expansion_terminates` on `cycleWorld` (pages 1 and
2 mention each other): with `univ = {1, 2}` and fuel 3 the expansion
terminates, claims each id once, and the claim-lost branch on the cycle
member 1 returns `None` with the state unchanged. -/
theorem cyclic_expansion_terminates_witness :
    ((get_page cycleWorld 1 3 ⟨1, "one", []⟩ none st0).1 ≠ Except.error Err.fuel)
    ∧ ((get_page cycleWorld 1 3 ⟨1, "one", []⟩ none st0).2.claimed.Nodup)
    ∧ (get_page cycleWorld 1 2 ⟨1, "one", []⟩ none ⟨[1, 2], []⟩ =
        (Except.ok none, ⟨[1, 2], []⟩)) := by
  have hH1 : PagePropsClosed cycleWorld {1, 2} := by
    intro i pd h
    simp only [cycleWorld] at h
    split_ifs at h with h1 h2
    · injection h with h'
      subst h'
      decide
    · injection h with h'
      subst h'
      decide
  have hH2 : DbQueryClosed cycleWorld {1, 2} := by
    intro i pd h
    simp [cycleWorld] at h
  have hH3 : ChildrenClosed cycleWorld {1, 2} := by
    intro pid b hb
    simp only [cycleWorld] at hb
    split_ifs at hb with h1 h2
    · rw [List.mem_singleton] at hb
      subst hb
      refine ⟨fun hc => absurd hc (by decide), ?_, ?_⟩
      · intro rt hrt d hd
        rw [List.mem_singleton] at hrt
        subst hrt
        simp at hd
      · intro c hc
        simp at hc
    · rw [List.mem_singleton] at hb
      subst hb
      refine ⟨fun hc => absurd hc (by decide), ?_, ?_⟩
      · intro rt hrt d hd
        rw [List.mem_singleton] at hrt
        subst hrt
        simp at hd
      · intro c hc
        simp at hc
    · simp at hb
  have hHB : BlockWalkOk cycleWorld 1 := by
    intro pid
    simp only [fabFuelOk, cycleWorld]
    split_ifs with h1 h2 <;> simp
  have h := cyclic_expansion_terminates cycleWorld {1, 2} 1 hH1 hH2 hH3 hHB
    ⟨1, "one", []⟩ (by decide) 3 (by decide)
  exact ⟨h.1, h.2.1,
    h.2.2.2.1 1 ⟨1, "one", []⟩ none ⟨[1, 2], []⟩ (by decide) (by decide)⟩
